import Mathlib

/-!
Verification development for the test-case generator backend
(`backend.py`): a shallow embedding of `parse_test_cases_from_response`
(lines 128-194) and of the row-expansion loop of `create_excel_file`
(lines 207-239), together with theorems settling the specification
claims about them.

Modelling conventions:
* Python strings are `String` (lists of unicode code points, as in Python).
* `json.loads` is modelled by an executable JSON reader `jsonDecode`
  returning `Except`; a raised exception is an `Except.error` carrying a
  message (message texts need not match CPython's).
* A pandas `DataFrame` is modelled column-wise (`DF`): a row count plus an
  ordered list of labelled columns; a cell is `Option JsonVal`, `none`
  standing for a NaN produced by a key missing from one of the dicts.
* `pd.DataFrame` applied to a list whose elements are all dicts is modelled
  exactly (column order = first appearance of keys, missing keys become
  NaN); for lists containing any non-dict element - reachable only through
  degenerate LLM responses such as `["just a string"]` - the construction
  is modelled conservatively as a construction failure.
-/

set_option maxHeartbeats 1000000

namespace TCG

/-- JSON values as produced by the JSON decoder.  Numbers keep their source
lexeme; nothing in the pipeline ever inspects a numeric value. -/
inductive JsonVal : Type where
  | null : JsonVal
  | bool (b : Bool) : JsonVal
  | num (lexeme : String) : JsonVal
  | str (s : String) : JsonVal
  | arr (elems : List JsonVal) : JsonVal
  | obj (fields : List (String × JsonVal)) : JsonVal

/-- JSON whitespace (the four characters skipped by the decoder). -/
def isJsonWs (c : Char) : Bool := c = ' ' || c = '\t' || c = '\n' || c = '\r'

def skipWs (l : List Char) : List Char := l.dropWhile isJsonWs

def isHexDigitC (c : Char) : Bool :=
  c.isDigit || ('a' ≤ c && c ≤ 'f') || ('A' ≤ c && c ≤ 'F')

def hexVal (c : Char) : Nat :=
  if c.isDigit then c.toNat - '0'.toNat
  else if 'a' ≤ c && c ≤ 'f' then c.toNat - 'a'.toNat + 10
  else c.toNat - 'A'.toNat + 10

/-- Body of a JSON string literal, after the opening quote.  Handles the
standard escapes; an unescaped control character is rejected, as in the
strict decoder. -/
def parseStrBody : Nat → List Char → List Char → Except String (String × List Char)
  | 0, _, _ => .error "Unterminated string"
  | fuel + 1, acc, l =>
    match l with
    | [] => .error "Unterminated string"
    | '"' :: rest => .ok (String.mk acc.reverse, rest)
    | '\\' :: rest =>
      match rest with
      | '"' :: r => parseStrBody fuel ('"' :: acc) r
      | '\\' :: r => parseStrBody fuel ('\\' :: acc) r
      | '/' :: r => parseStrBody fuel ('/' :: acc) r
      | 'b' :: r => parseStrBody fuel ('\x08' :: acc) r
      | 'f' :: r => parseStrBody fuel ('\x0c' :: acc) r
      | 'n' :: r => parseStrBody fuel ('\n' :: acc) r
      | 'r' :: r => parseStrBody fuel ('\x0d' :: acc) r
      | 't' :: r => parseStrBody fuel ('\t' :: acc) r
      | 'u' :: a :: b :: c :: d :: r =>
        if isHexDigitC a && isHexDigitC b && isHexDigitC c && isHexDigitC d then
          parseStrBody fuel
            (Char.ofNat (((hexVal a * 16 + hexVal b) * 16 + hexVal c) * 16 + hexVal d) :: acc) r
        else .error "Invalid unicode escape"
      | _ => .error "Invalid escape"
    | c :: rest =>
      if c.toNat < 32 then .error "Invalid control character"
      else parseStrBody fuel (c :: acc) rest

/-- Exponent part of a JSON number; `db` is the lexeme read so far. -/
def parseExpPart (db : List Char) (l : List Char) : Except String (String × List Char) :=
  match l with
  | c :: r =>
    if c = 'e' || c = 'E' then
      let sgnr : List Char × List Char :=
        match r with
        | '+' :: rr => (['+'], rr)
        | '-' :: rr => (['-'], rr)
        | _ => ([], r)
      let ds := sgnr.2.takeWhile Char.isDigit
      let r2 := sgnr.2.dropWhile Char.isDigit
      if ds.isEmpty then .error "Expecting digits in exponent"
      else .ok (String.mk (db ++ c :: (sgnr.1 ++ ds)), r2)
    else .ok (String.mk db, l)
  | [] => .ok (String.mk db, [])

/-- Fractional part then exponent of a JSON number. -/
def parseFracExp (ip : List Char) (l : List Char) : Except String (String × List Char) :=
  match l with
  | '.' :: r =>
    let ds := r.takeWhile Char.isDigit
    let r1 := r.dropWhile Char.isDigit
    if ds.isEmpty then .error "Expecting digits after decimal point"
    else parseExpPart (ip ++ '.' :: ds) r1
  | _ => parseExpPart ip l

/-- A JSON number (the grammar `-?(0|[1-9][0-9]*)(.[0-9]+)?([eE][+-]?[0-9]+)?`). -/
def parseNumber (l : List Char) : Except String (String × List Char) :=
  let sgnl : List Char × List Char :=
    match l with
    | '-' :: r => (['-'], r)
    | _ => ([], l)
  let ip := sgnl.2.takeWhile Char.isDigit
  let l2 := sgnl.2.dropWhile Char.isDigit
  if ip.isEmpty then .error "Expecting value"
  else if 1 < ip.length && ip.head? = some '0' then .error "Expecting value"
  else parseFracExp (sgnl.1 ++ ip) l2

/-- Python dict construction from key/value pairs: a repeated key keeps its
first position but takes its last value. -/
def dedupPairs (ps : List (String × JsonVal)) : List (String × JsonVal) :=
  ps.foldl
    (fun acc p =>
      if acc.any (fun q => q.1 = p.1) then
        acc.map (fun q => if q.1 = p.1 then (q.1, p.2) else q)
      else acc ++ [p])
    []

mutual

/-- A JSON value; the input must already start at a non-whitespace
character.  Also accepts the constants `NaN`, `Infinity`, `-Infinity`. -/
def parseValue : Nat → List Char → Except String (JsonVal × List Char)
  | 0, _ => .error "Nesting too deep"
  | fuel + 1, l =>
    match l with
    | [] => .error "Expecting value"
    | '"' :: rest => (parseStrBody (rest.length + 1) [] rest).map (fun p => (JsonVal.str p.1, p.2))
    | '{' :: rest => parseObjStart fuel rest
    | '[' :: rest => parseArrStart fuel rest
    | 't' :: rest =>
      if rest.take 3 = ['r', 'u', 'e'] then .ok (.bool true, rest.drop 3)
      else .error "Expecting value"
    | 'f' :: rest =>
      if rest.take 4 = ['a', 'l', 's', 'e'] then .ok (.bool false, rest.drop 4)
      else .error "Expecting value"
    | 'n' :: rest =>
      if rest.take 3 = ['u', 'l', 'l'] then .ok (.null, rest.drop 3)
      else .error "Expecting value"
    | 'N' :: rest =>
      if rest.take 2 = ['a', 'N'] then .ok (.num "NaN", rest.drop 2)
      else .error "Expecting value"
    | 'I' :: rest =>
      if rest.take 7 = ['n', 'f', 'i', 'n', 'i', 't', 'y'] then .ok (.num "Infinity", rest.drop 7)
      else .error "Expecting value"
    | '-' :: 'I' :: rest =>
      if rest.take 7 = ['n', 'f', 'i', 'n', 'i', 't', 'y'] then .ok (.num "-Infinity", rest.drop 7)
      else .error "Expecting value"
    | _ => (parseNumber l).map (fun p => (JsonVal.num p.1, p.2))

/-- An array body, after the opening bracket. -/
def parseArrStart : Nat → List Char → Except String (JsonVal × List Char)
  | 0, _ => .error "Nesting too deep"
  | fuel + 1, l =>
    match skipWs l with
    | ']' :: rest => .ok (.arr [], rest)
    | l1 => do
      let p ← parseValue fuel l1
      parseArrRest fuel [p.1] p.2

/-- Remaining elements of an array; `acc` holds the values read so far,
in reverse. -/
def parseArrRest : Nat → List JsonVal → List Char → Except String (JsonVal × List Char)
  | 0, _, _ => .error "Nesting too deep"
  | fuel + 1, acc, l =>
    match skipWs l with
    | ',' :: rest => do
      let p ← parseValue fuel (skipWs rest)
      parseArrRest fuel (p.1 :: acc) p.2
    | ']' :: rest => .ok (.arr acc.reverse, rest)
    | _ => .error "Expecting comma delimiter"

/-- An object body, after the opening brace. -/
def parseObjStart : Nat → List Char → Except String (JsonVal × List Char)
  | 0, _ => .error "Nesting too deep"
  | fuel + 1, l =>
    match skipWs l with
    | '}' :: rest => .ok (.obj [], rest)
    | '"' :: rest => do
      let kp ← parseStrBody (rest.length + 1) [] rest
      let vp ← parseMemberValue fuel kp.2
      parseObjRest fuel [(kp.1, vp.1)] vp.2
    | _ => .error "Expecting property name enclosed in double quotes"

/-- The colon and value of one object member. -/
def parseMemberValue : Nat → List Char → Except String (JsonVal × List Char)
  | 0, _ => .error "Nesting too deep"
  | fuel + 1, l =>
    match skipWs l with
    | ':' :: rest => parseValue fuel (skipWs rest)
    | _ => .error "Expecting colon delimiter"

/-- Remaining members of an object; `acc` holds the pairs read so far,
in reverse. -/
def parseObjRest : Nat → List (String × JsonVal) → List Char → Except String (JsonVal × List Char)
  | 0, _, _ => .error "Nesting too deep"
  | fuel + 1, acc, l =>
    match skipWs l with
    | ',' :: rest =>
      match skipWs rest with
      | '"' :: r2 => do
        let kp ← parseStrBody (r2.length + 1) [] r2
        let vp ← parseMemberValue fuel kp.2
        parseObjRest fuel ((kp.1, vp.1) :: acc) vp.2
      | _ => .error "Expecting property name enclosed in double quotes"
    | '}' :: rest => .ok (.obj (dedupPairs acc.reverse), rest)
    | _ => .error "Expecting comma delimiter"

end

/-- Python `json.loads`: whitespace, one value, whitespace, end of input. -/
def jsonDecode (l : List Char) : Except String JsonVal := do
  let p ← parseValue (l.length + 8) (skipWs l)
  if (skipWs p.2).isEmpty then pure p.1 else .error "Extra data"

/-! ### Python string primitives used by `parse_test_cases_from_response` -/

/-- The ASCII whitespace characters removed by Python `str.strip()`. -/
def isPyWs (c : Char) : Bool :=
  c = ' ' || c = '\t' || c = '\n' || c = '\x0d' || c = '\x0b' || c = '\x0c'

def pyStripList (l : List Char) : List Char :=
  ((l.dropWhile isPyWs).reverse.dropWhile isPyWs).reverse

/-- Python `s.strip()` (ASCII whitespace; the pipeline never feeds it the
exotic unicode space characters Python would also remove). -/
def pyStrip (s : String) : String := String.mk (pyStripList s.data)

/-- Python `s[:n]`: the first `n` characters. -/
def pyTake (n : Nat) (s : String) : String := String.mk (s.data.take n)

/-- Everything up to and including the last right bracket of `cs`
(meaningful when `cs` contains one). -/
def takeToLastRB (cs : List Char) : List Char :=
  (cs.reverse.dropWhile (fun c => c ≠ ']')).reverse

/-- Python `re.search(r'\[.*\]', text, re.DOTALL)`: the leftmost match starts at
the first left bracket followed (anywhere later) by a right bracket, and
the greedy `.*` extends it to the last right bracket of the text. -/
def extractSpan : List Char → Option (List Char)
  | [] => none
  | c :: cs =>
    if c = '[' then
      if cs.contains ']' then some ('[' :: takeToLastRB cs) else none
    else extractSpan cs

/-- Whether the text has a left bracket followed (later) by a right
bracket, i.e. whether the regex `\[.*\]` matches. -/
def hasArraySpan : List Char → Bool
  | [] => false
  | c :: cs => if c = '[' then cs.contains ']' else hasArraySpan cs

/-- Python `s.replace('\\n', '\n')` on the character list: every
occurrence of the two-character sequence backslash-n becomes one newline,
scanning left to right. -/
def replEsc : List Char → List Char
  | [] => []
  | [c] => [c]
  | a :: b :: rest =>
    if a = '\\' && b = 'n' then '\n' :: replEsc rest
    else a :: replEsc (b :: rest)

def pyReplaceEsc (s : String) : String := String.mk (replEsc s.data)

/-- Whether the character list contains the two-character sequence
backslash-n (the literal escape the repair step removes). -/
def hasEscSeq : List Char → Bool
  | [] => false
  | [_] => false
  | a :: b :: rest => (a = '\\' && b = 'n') || hasEscSeq (b :: rest)

/-- Python substring test `pat in l`. -/
def containsSub (pat : List Char) : List Char → Bool
  | [] => pat.isEmpty
  | c :: cs => pat.isPrefixOf (c :: cs) || containsSub pat cs

/-! ### Dicts (decoded JSON objects) and the normalization loop -/

abbrev Obj := List (String × JsonVal)

def keysOf (o : Obj) : List String := o.map Prod.fst

/-- Python dict lookup (keys are unique, so first match suffices). -/
def olookup (k : String) : Obj → Option JsonVal
  | [] => none
  | p :: ps => if p.1 = k then some p.2 else olookup k ps

def hasKey (o : Obj) (k : String) : Bool := o.any (fun p => p.1 = k)

/-- Python dict item assignment for an existing key: the key keeps its
position, the value is replaced. -/
def setVal (k : String) (v : JsonVal) (o : Obj) : Obj :=
  o.map (fun p => if p.1 = k then (p.1, v) else p)

/-- Python `k in x` for the loop of backend.py lines 152-158: key test on a
dict, substring test on a string, membership test on a list (comparing
each element with the string `k`; a non-string element is never equal),
and a TypeError - modelled as `.error` - on anything else. -/
def pyContains (v : JsonVal) (k : String) : Except String Bool :=
  match v with
  | .obj fs => .ok (hasKey fs k)
  | .str s => .ok (containsSub k.data s.data)
  | .arr xs => .ok (xs.any (fun x => match x with | .str s => s = k | _ => false))
  | _ => .error "argument is not iterable"

/-- Python `x[k]` for a string key: dict lookup, TypeError on a string or
list, TypeError on anything non-subscriptable. -/
def pyGetItem (v : JsonVal) (k : String) : Except String JsonVal :=
  match v with
  | .obj fs =>
    match olookup k fs with
    | some x => .ok x
    | none => .error "KeyError"
  | .str _ => .error "string indices must be integers"
  | .arr _ => .error "list indices must be integers"
  | _ => .error "object is not subscriptable"

/-- One guarded repair of backend.py lines 153-158:
`if k in tc and isinstance(tc[k], str): tc[k] = tc[k].replace('\\n', '\n')`. -/
def fixField (k : String) (v : JsonVal) : Except String JsonVal := do
  let b ← pyContains v k
  if b then
    match v, (← pyGetItem v k) with
    | .obj fs, .str s => pure (.obj (setVal k (.str (pyReplaceEsc s)) fs))
    | v1, _ => pure v1
  else pure v

/-- The body of the `for test_case in test_cases` loop (lines 152-158):
repair `test_steps`, then `preconditions`, then `expected_result`. -/
def fixFields (v : JsonVal) : Except String JsonVal := do
  fixField "expected_result" (← fixField "preconditions" (← fixField "test_steps" v))

/-- The effect of one repair of lines 153-158 on a dict (the error-free
form of `fixField`): a string value under the key has its escaped
newlines replaced; any other shape is untouched. -/
def normField (k : String) (fs : Obj) : Obj :=
  match olookup k fs with
  | some (.str s) => setVal k (.str (pyReplaceEsc s)) fs
  | _ => fs

/-- The effect of the whole loop body on one dict. -/
def normObjFields (fs : Obj) : Obj :=
  normField "expected_result" (normField "preconditions" (normField "test_steps" fs))

/-- Effectful map over the decoded list, propagating the first raised
error, as the Python for-loop does. -/
def exMapM (f : JsonVal → Except String JsonVal) : List JsonVal → Except String (List JsonVal)
  | [] => .ok []
  | v :: vs =>
    Except.bind (f v) (fun b => Except.bind (exMapM f vs) (fun bs => .ok (b :: bs)))

/-! ### The pandas DataFrame model -/

/-- One DataFrame cell: `none` is a NaN (a key missing from one of the
dicts the frame was built from). -/
abbrev Cell := Option JsonVal

/-- A pandas DataFrame, column-wise: a row count and an ordered list of
labelled columns (labels may repeat, as in pandas). -/
structure DF where
  nrows : Nat
  cols : List (String × List Cell)

def DF.names (df : DF) : List String := df.cols.map Prod.fst

/-- The data of every column labelled `n`, in column order. -/
def DF.colVals (df : DF) (n : String) : List (List Cell) :=
  (df.cols.filter (fun c => c.1 = n)).map Prod.snd

/-- Boolean membership of a string in a list of strings (Python `in`). -/
def strMem (k : String) : List String → Bool
  | [] => false
  | c :: cs => (c = k) || strMem k cs

/-- Keys of `ks` not yet in `acc`, appended in order of first appearance. -/
def addKeys (acc : List String) (ks : List String) : List String :=
  ks.foldl (fun a k => if strMem k a then a else a ++ [k]) acc

/-- Column labels of `pd.DataFrame(list_of_dicts)`: union of the dict
keys, ordered by first appearance. -/
def unionKeys (objs : List Obj) : List String :=
  objs.foldl (fun acc o => addKeys acc (keysOf o)) []

def isObjV : JsonVal → Bool
  | .obj _ => true
  | _ => false

def asObj : JsonVal → Obj
  | .obj fs => fs
  | _ => []

/-- Pandas `pd.DataFrame(list_of_dicts)`: one row per dict, one column per key in
first-appearance order, NaN where a dict lacks the key. -/
def mkDFObjs (objs : List Obj) : DF :=
  ⟨objs.length, (unionKeys objs).map (fun k => (k, objs.map (fun o => olookup k o)))⟩

/-- Pandas `pd.DataFrame(test_cases)` (line 160).  The success path of the parser
only ever reaches this with a list of dicts, which is modelled exactly;
a list containing a non-dict element (a degenerate response such as
`["text"]`) is modelled conservatively as a construction failure. -/
def pdDataFrame (l : List JsonVal) : Except String DF :=
  if l.all isObjV then .ok (mkDFObjs (l.map asObj)) else .error "DataFrame construction failed"

/-- The `required_columns` mapping of backend.py lines 162-171, in dict
insertion order. -/
def requiredPairs : List (String × String) :=
  [("test_case_id", "Test Case ID"), ("title", "Test Case Title"),
   ("description", "Description"), ("preconditions", "Preconditions"),
   ("test_steps", "Test Steps"), ("expected_result", "Expected Result"),
   ("test_data", "Test Data"), ("module", "Module/Feature")]

/-- The selection list `list(required_columns.values())`. -/
def displayNames : List String := requiredPairs.map Prod.snd

def toBeDefined : Cell := some (.str "To be defined")

/-- One pass of the fill loop (lines 173-175): a required key absent from
the column labels is appended as a whole column of the sentinel. -/
def fillStep (df : DF) (p : String × String) : DF :=
  if strMem p.1 df.names then df
  else ⟨df.nrows, df.cols ++ [(p.1, List.replicate df.nrows toBeDefined)]⟩

def fillMissing (df : DF) : DF := requiredPairs.foldl fillStep df

/-- The rename `df.rename(columns=required_columns)` applied to one label. -/
def renName (c : String) : String :=
  if c = "test_case_id" then "Test Case ID"
  else if c = "title" then "Test Case Title"
  else if c = "description" then "Description"
  else if c = "preconditions" then "Preconditions"
  else if c = "test_steps" then "Test Steps"
  else if c = "expected_result" then "Expected Result"
  else if c = "test_data" then "Test Data"
  else if c = "module" then "Module/Feature"
  else c

def renameCols (df : DF) : DF := ⟨df.nrows, df.cols.map (fun c => (renName c.1, c.2))⟩

/-- The selection `df[list(required_columns.values())]` (line 178): for each requested
label in order, every column carrying that label, in original order -
pandas returns all matches when labels are duplicated. -/
def selectCols (df : DF) : DF :=
  ⟨df.nrows, displayNames.flatMap (fun n => df.cols.filter (fun c => c.1 = n))⟩

/-- Lines 160-178 applied to the repaired list: DataFrame construction,
sentinel fill, rename and column selection (errors propagate, as raised
exceptions do). -/
def shapeOk (df : DF) : Except String DF :=
  .ok (selectCols (renameCols (fillMissing df)))

def frameStage (cs : List JsonVal) : Except String DF :=
  Except.bind (pdDataFrame cs) shapeOk

/-- Lines 148-181 applied to the decoded list: the normalization loop,
then `frameStage`. -/
def dataFramePipeline (cases : List JsonVal) : Except String DF :=
  Except.bind (exMapM fixFields cases) frameStage

/-- The wrap `if not isinstance(test_cases, list): test_cases = [test_cases]`
(lines 148-149). -/
def toPyList : JsonVal → List JsonVal
  | .arr xs => xs
  | v => [v]

/-- The generic single-case fallback dict of lines 143-146 (`t` is the
stripped response text). -/
def genericFallbackObj (t : String) : Obj :=
  [("test_case_id", .str "TC001"), ("title", .str "Generated Test Case"),
   ("description", .str (pyTake 200 t)), ("preconditions", .str "System access required"),
   ("test_steps", .str "1. Review context\n2. Execute test\n3. Validate results"),
   ("expected_result", .str "Test executes successfully"), ("test_data", .str "As per requirements"),
   ("priority", .str "Medium"), ("test_type", .str "Functional"), ("module", .str "General")]

/-- Lines 136-146: extract the bracketed span and decode it, or fall back
to the generic single-case dict when no span exists. -/
def getCases (t : String) : Except String (List JsonVal) :=
  match extractSpan t.data with
  | some sp => (jsonDecode sp).map toPyList
  | none => .ok [JsonVal.obj (genericFallbackObj t)]

/-- The exception-branch DataFrame of lines 185-194 (`t` is the stripped
response text, `e` the message of the exception caught). -/
def errorFallbackDF (t : String) (e : String) : DF :=
  ⟨1, [("Test Case ID", [some (.str "TC001")]),
       ("Test Case Title", [some (.str "Parsing Error")]),
       ("Description", [some (.str ("Error: " ++ e))]),
       ("Preconditions", [some (.str "Manual review required")]),
       ("Test Steps", [some (.str (pyTake 500 t))]),
       ("Expected Result", [some (.str "Successful generation after review")]),
       ("Test Data", [some (.str "N/A")]),
       ("Module/Feature", [some (.str "System")])]⟩

/-- The frame the generic fallback dict turns into after the fill,
rename and selection steps (`t` is the stripped response text). -/
def genericFallbackDF (t : String) : DF :=
  ⟨1, [("Test Case ID", [some (.str "TC001")]),
       ("Test Case Title", [some (.str "Generated Test Case")]),
       ("Description", [some (.str (pyTake 200 t))]),
       ("Preconditions", [some (.str "System access required")]),
       ("Test Steps", [some (.str "1. Review context\n2. Execute test\n3. Validate results")]),
       ("Expected Result", [some (.str "Test executes successfully")]),
       ("Test Data", [some (.str "As per requirements")]),
       ("Module/Feature", [some (.str "General")])]⟩

/-- The try/except of lines 133-194: a successful body yields its frame,
a raised error the diagnostic fallback frame. -/
def unwrapOrErrorDF (r : Except String DF) (t : String) : DF :=
  match r with
  | .ok df => df
  | .error e => errorFallbackDF t e

/-- The function `parse_test_cases_from_response` (backend.py lines 128-194): strip,
extract/decode (or generic fallback), normalize, build and shape the
DataFrame; any error raised on the way yields the diagnostic fallback
frame of the except branch. -/
def parse_test_cases_from_response (s : String) : DF :=
  unwrapOrErrorDF (Except.bind (getCases (pyStrip s)) dataFramePipeline) (pyStrip s)

/-- Whether a decode result is the empty JSON array. -/
def isEmptyArrayDecode : Except String JsonVal → Bool
  | .ok (.arr []) => true
  | _ => false

def emptySpanDecode : Option (List Char) → Bool
  | some sp => isEmptyArrayDecode (jsonDecode sp)
  | none => false

/-- Whether the bracketed span of the (stripped) input decodes to the
empty JSON array - the one situation in which the parser returns an
empty record set. -/
def decodedEmptyArray (s : String) : Bool :=
  emptySpanDecode (extractSpan (pyStrip s).data)

/-! ### The row-expansion loop of `create_excel_file` (lines 207-239) -/

/-- One normalized test-case record as read back from the parser's
DataFrame, all eight display columns as strings (`str(row[...])` has been
applied). -/
structure TCRow where
  testCaseId : String
  testCaseTitle : String
  description : String
  preconditions : String
  testSteps : String
  expectedResult : String
  testData : String
  moduleFeature : String
  deriving Repr, DecidableEq

/-- One expanded spreadsheet row: the exact 9-field dict appended at
lines 229-239. -/
structure StepRow where
  testCaseId : String
  testCaseTitle : String
  description : String
  preconditions : String
  stepNumber : Nat
  testStep : String
  expectedResult : String
  screenshot : String
  testData : String
  deriving Repr, DecidableEq

/-- The keyword list of lines 220 and 226. -/
def screenshotKeywords : List String :=
  ["verify", "check", "confirm", "validate", "ensure", "displayed",
   "appears", "shown", "visible"]

/-- Python `s.lower()` (ASCII case mapping, which covers every keyword
and the realistic step texts). -/
def pyLower (s : String) : String := String.mk (s.data.map Char.toLower)

/-- The keyword test `any(keyword in step.lower() for keyword in [...])`. -/
def needsScreenshot (step : String) : Bool :=
  screenshotKeywords.any (fun k => containsSub k.data (pyLower step).data)

/-- Python `s.split('\n')` on the character list: the pieces between
newline characters, empty pieces kept. -/
def splitOnNl : List Char → List (List Char)
  | [] => [[]]
  | c :: rest =>
    if c = '\n' then [] :: splitOnNl rest
    else
      match splitOnNl rest with
      | [] => [[c]]
      | piece :: pieces => (c :: piece) :: pieces

/-- Lines 210-211: split the steps text on newlines, strip each piece,
drop the pieces that are empty after stripping. -/
def splitSteps (s : String) : List String :=
  (((splitOnNl s.data).map (fun l => pyStrip (String.mk l)))).filter (fun x => x ≠ "")

def screenshotMarker : String := "**Add screenshot here"

/-- Lines 219-227: the per-step expected result - marker for a
screenshot-keyword step, the whole expected result on the last step, and
marker-newline-expected-result when the last step carries a keyword. -/
def stepExpectedResult (tc : TCRow) (st : String) (n total : Nat) : String :=
  let base :=
    if needsScreenshot st then screenshotMarker
    else if n = total then tc.expectedResult
    else ""
  if n = total && needsScreenshot st then screenshotMarker ++ "\n" ++ tc.expectedResult
  else base

/-- The dict appended at lines 229-239 for step number `n` (1-based) of
`total`. -/
def mkStepRow (tc : TCRow) (n total : Nat) (st : String) : StepRow :=
  { testCaseId := if n = 1 then tc.testCaseId else ""
    testCaseTitle := if n = 1 then tc.testCaseTitle else ""
    description := if n = 1 then tc.description else ""
    preconditions := if n = 1 then tc.preconditions else ""
    stepNumber := n
    testStep := st
    expectedResult := stepExpectedResult tc st n total
    screenshot := ""
    testData := if n = 1 then tc.testData else "" }

/-- The loop `for step_num, step in enumerate(test_steps, 1)` (line 217):
rows for the steps `sts`, numbering them from `n`. -/
def buildRows (tc : TCRow) (total : Nat) : Nat → List String → List StepRow
  | _, [] => []
  | n, st :: rest => mkStepRow tc n total st :: buildRows tc total (n + 1) rest

/-- All expanded rows of one test case. -/
def expandTestCase (tc : TCRow) : List StepRow :=
  buildRows tc (splitSteps tc.testSteps).length 1 (splitSteps tc.testSteps)

/-- The full `expanded_rows` list (lines 207-239): test cases in order,
steps in order within each. -/
def expandedRows (tcs : List TCRow) : List StepRow := tcs.flatMap expandTestCase

/-- Modelled from the spec (claim C4 compares the code against this):
the per-step expected result as the specification states it - for a
non-final step, the marker when the step needs a screenshot and the empty
string otherwise; for the final step, marker-newline-whole-expected-result
when it needs a screenshot and the whole expected result unmodified
otherwise. -/
def specStepExpectedResult (tc : TCRow) (st : String) (n total : Nat) : String :=
  if n < total then (if needsScreenshot st then screenshotMarker else "")
  else if needsScreenshot st then screenshotMarker ++ "\n" ++ tc.expectedResult
  else tc.expectedResult

/-! ### Lemmas about the expansion loop -/

theorem buildRows_getElem? (tc : TCRow) (total : Nat) :
    ∀ (sts : List String) (n i : Nat),
      (buildRows tc total n sts)[i]? = (sts[i]?).map (fun st => mkStepRow tc (n + i) total st) := by
  intro sts
  induction sts with
  | nil => intro n i; simp [buildRows]
  | cons st rest ih =>
    intro n i
    cases i with
    | zero => simp [buildRows]
    | succ j =>
      simp only [buildRows, List.getElem?_cons_succ]
      rw [ih (n + 1) j]
      have hnj : n + 1 + j = n + (j + 1) := by omega
      rw [hnj]

theorem buildRows_map_stepNumber (tc : TCRow) (total : Nat) :
    ∀ (sts : List String) (n : Nat),
      (buildRows tc total n sts).map (fun r => r.stepNumber) = List.range' n sts.length := by
  intro sts
  induction sts with
  | nil => intro n; simp [buildRows]
  | cons st rest ih =>
    intro n
    rw [buildRows, List.map_cons, ih (n + 1), List.length_cons, List.range'_succ]
    rfl

theorem buildRows_map_testStep (tc : TCRow) (total : Nat) :
    ∀ (sts : List String) (n : Nat),
      (buildRows tc total n sts).map (fun r => r.testStep) = sts := by
  intro sts
  induction sts with
  | nil => intro n; simp [buildRows]
  | cons st rest ih => intro n; simp [buildRows, mkStepRow, ih]

theorem buildRows_length (tc : TCRow) (total : Nat) :
    ∀ (sts : List String) (n : Nat), (buildRows tc total n sts).length = sts.length := by
  intro sts
  induction sts with
  | nil => intro n; simp [buildRows]
  | cons st rest ih => intro n; simp [buildRows, ih]

theorem mem_buildRows (tc : TCRow) (total : Nat) :
    ∀ (sts : List String) (n : Nat) (r : StepRow), r ∈ buildRows tc total n sts →
      ∃ m st, n ≤ m ∧ r = mkStepRow tc m total st := by
  intro sts
  induction sts with
  | nil => intro n r hr; simp [buildRows] at hr
  | cons st rest ih =>
    intro n r hr
    rw [buildRows, List.mem_cons] at hr
    rcases hr with hr | hr
    · exact ⟨n, st, Nat.le_refl n, hr⟩
    · obtain ⟨m, st1, hm, he⟩ := ih (n + 1) r hr
      exact ⟨m, st1, by omega, he⟩

theorem stepExpected_eq_spec (tc : TCRow) (st : String) (n total : Nat) (h : n ≤ total) :
    stepExpectedResult tc st n total = specStepExpectedResult tc st n total := by
  unfold stepExpectedResult specStepExpectedResult
  by_cases hn : n = total
  · cases hns : needsScreenshot st <;> simp [hn, hns]
  · have hlt : n < total := Nat.lt_of_le_of_ne h hn
    cases hns : needsScreenshot st <;> simp [hn, hns, hlt]

/-- Claim C4: for every test case and every step at 1-based position
`i + 1` of `total` steps, the expanded row's expected result is exactly
what the specification states: for a non-final step, the screenshot
marker when the step text contains a screenshot keyword
(case-insensitively) and the empty string otherwise; for the final step,
the marker, a newline and the whole expected result when a keyword is
present, and the whole expected result unmodified otherwise. -/
theorem claim4_step_expected_result (tc : TCRow) (i : Nat)
    (h : i < (splitSteps tc.testSteps).length) :
    ((expandTestCase tc)[i]?).map (fun r => r.expectedResult) =
      some (specStepExpectedResult tc ((splitSteps tc.testSteps).getD i "")
        (i + 1) (splitSteps tc.testSteps).length) := by
  unfold expandTestCase
  rw [buildRows_getElem?, List.getElem?_eq_getElem h, List.getD_eq_getElem _ _ h]
  show some (stepExpectedResult tc _ (1 + i) _) = _
  rw [Nat.add_comm 1 i, stepExpected_eq_spec tc _ (i + 1) _ (by omega)]

/-- Witness for C4, at the specification's own example: two steps
`"Click Login"` and `"Verify homepage displayed"` with expected result
`"User logged in"`; the final row's expected result is the marker,
a newline and the whole expected result. -/
theorem claim4_step_expected_result_witness :
    (1 < (splitSteps "Click Login\nVerify homepage displayed").length) ∧
      ((expandTestCase ⟨"TC001", "Login", "Desc", "Pre",
          "Click Login\nVerify homepage displayed", "User logged in", "TD", "M"⟩)[1]?).map
        (fun r => r.expectedResult) = some "**Add screenshot here\nUser logged in" :=
  ⟨by decide,
    (claim4_step_expected_result
      ⟨"TC001", "Login", "Desc", "Pre", "Click Login\nVerify homepage displayed",
        "User logged in", "TD", "M"⟩ 1 (by decide)).trans (by rfl)⟩

/-- Claim C5: expansion splits `test_steps` on newlines, strips each
piece and drops empty pieces; it emits exactly one row per remaining
piece, numbered 1..total in order (so an empty or all-blank `test_steps`
yields zero rows). -/
theorem claim5_step_rows (tc : TCRow) :
    (expandTestCase tc).map (fun r => r.stepNumber) =
        List.range' 1 (splitSteps tc.testSteps).length
    ∧ (expandTestCase tc).map (fun r => r.testStep) = splitSteps tc.testSteps
    ∧ (expandTestCase tc).length = (splitSteps tc.testSteps).length := by
  refine ⟨?_, ?_, ?_⟩
  · exact buildRows_map_stepNumber tc _ _ 1
  · exact buildRows_map_testStep tc _ _ 1
  · exact buildRows_length tc _ _ 1

/-- Claim C8: in the rows expanded from one test case, the parent's id,
title, description, preconditions and test data appear exactly on the row
with step number 1; every other row carries the empty string in those
five fields. -/
theorem claim8_parent_fields_first_row_only (tc : TCRow) (r : StepRow)
    (hr : r ∈ expandTestCase tc) :
    (r.stepNumber = 1 →
      r.testCaseId = tc.testCaseId ∧ r.testCaseTitle = tc.testCaseTitle ∧
      r.description = tc.description ∧ r.preconditions = tc.preconditions ∧
      r.testData = tc.testData)
    ∧ (r.stepNumber ≠ 1 →
      r.testCaseId = "" ∧ r.testCaseTitle = "" ∧ r.description = "" ∧
      r.preconditions = "" ∧ r.testData = "") := by
  obtain ⟨m, st, _, he⟩ := mem_buildRows tc _ _ 1 r hr
  subst he
  by_cases hm : m = 1
  · subst hm
    exact ⟨fun _ => ⟨rfl, rfl, rfl, rfl, rfl⟩, fun h1 => absurd rfl h1⟩
  · refine ⟨fun h1 => absurd h1 hm, fun _ => ?_⟩
    simp [mkStepRow, hm]

/-- Witness for C8: a three-step test case whose second row is the
all-blank-parent row with step number 2. -/
theorem claim8_parent_fields_first_row_only_witness :
    (⟨"", "", "", "", 2, "2. Check B", "**Add screenshot here", "", ""⟩ : StepRow) ∈
        expandTestCase ⟨"ID1", "T", "D", "P", "1. A\n2. Check B\n3. C", "ER", "TD", "M"⟩
    ∧ ((2 : Nat) ≠ 1 →
        ("" : String) = "" ∧ ("" : String) = "" ∧ ("" : String) = "" ∧
        ("" : String) = "" ∧ ("" : String) = "") :=
  ⟨by decide,
    (claim8_parent_fields_first_row_only
      ⟨"ID1", "T", "D", "P", "1. A\n2. Check B\n3. C", "ER", "TD", "M"⟩
      ⟨"", "", "", "", 2, "2. Check B", "**Add screenshot here", "", ""⟩ (by decide)).2⟩

/-! ### Lemmas about the newline-repair loop -/

theorem hasKey_eq_isSome (k : String) : ∀ o : Obj, hasKey o k = (olookup k o).isSome := by
  intro o
  induction o with
  | nil => rfl
  | cons p ps ih =>
    by_cases hp : p.1 = k
    · simp [hasKey, olookup, hp]
    · simp [hasKey, olookup, hp] at ih ⊢
      exact ih

theorem fixField_obj (k : String) (fs : Obj) :
    fixField k (.obj fs) = .ok (.obj (normField k fs)) := by
  unfold fixField
  show Except.bind (pyContains (.obj fs) k) _ = _
  rw [pyContains, Except.bind, hasKey_eq_isSome]
  cases h : olookup k fs with
  | none =>
    unfold normField
    rw [h]
    rfl
  | some x =>
    show Except.bind (pyGetItem (.obj fs) k) _ = _
    rw [pyGetItem, h, Except.bind]
    unfold normField
    rw [h]
    cases x <;> rfl

theorem fixFields_obj (fs : Obj) :
    fixFields (.obj fs) = .ok (.obj (normObjFields fs)) := by
  unfold fixFields normObjFields
  show Except.bind (fixField "test_steps" (.obj fs)) _ = _
  rw [fixField_obj, Except.bind]
  show Except.bind (fixField "preconditions" _) _ = _
  rw [fixField_obj, Except.bind]
  exact fixField_obj _ _

theorem olookup_setVal_self (k : String) (v : JsonVal) :
    ∀ fs : Obj, ∀ x, olookup k fs = some x → olookup k (setVal k v fs) = some v := by
  intro fs
  induction fs with
  | nil => intro x hx; simp [olookup] at hx
  | cons p ps ih =>
    intro x hx
    by_cases hp : p.1 = k
    · simp [setVal, olookup, hp]
    · rw [olookup, if_neg hp] at hx
      simpa [setVal, olookup, hp] using ih x hx

theorem olookup_setVal_ne (k k' : String) (v : JsonVal) (hne : k ≠ k') :
    ∀ fs : Obj, olookup k (setVal k' v fs) = olookup k fs := by
  intro fs
  induction fs with
  | nil => rfl
  | cons p ps ih =>
    rw [setVal, List.map_cons]
    by_cases hk : p.1 = k
    · have hp : p.1 ≠ k' := by rw [hk]; exact hne
      rw [if_neg hp]
      simp [olookup, hk]
    · by_cases hp : p.1 = k'
      · rw [if_pos hp]
        simp only [olookup, hk, if_false]
        exact ih
      · rw [if_neg hp]
        simp only [olookup, hk, if_false]
        exact ih

theorem olookup_normField_self (k : String) (fs : Obj) (s : String)
    (h : olookup k fs = some (.str s)) :
    olookup k (normField k fs) = some (.str (pyReplaceEsc s)) := by
  unfold normField
  rw [h]
  exact olookup_setVal_self k _ fs _ h

theorem olookup_normField_ne (k k' : String) (fs : Obj) (hne : k ≠ k') :
    olookup k (normField k' fs) = olookup k fs := by
  unfold normField
  cases h : olookup k' fs with
  | none => rfl
  | some x => cases x <;> first | rfl | exact olookup_setVal_ne k k' _ hne fs

theorem replEsc_head (l : List Char) (c : Char) (h : (replEsc l).head? = some c) :
    c = '\n' ∨ l.head? = some c := by
  match l with
  | [] => simp [replEsc] at h
  | [a] =>
    rw [replEsc] at h
    right
    exact h
  | a :: b :: rest =>
    rw [replEsc] at h
    by_cases hab : (a = '\\' && b = 'n') = true
    · rw [if_pos hab] at h
      left
      simpa using h.symm
    · rw [if_neg hab] at h
      right
      simpa using h

theorem replEsc_no_esc_bounded :
    ∀ (n : Nat) (l : List Char), l.length ≤ n → hasEscSeq (replEsc l) = false := by
  intro n
  induction n with
  | zero =>
    intro l hl
    have h0 : l = [] := List.eq_nil_of_length_eq_zero (Nat.le_zero.mp hl)
    rw [h0]
    rfl
  | succ n ihn =>
    intro l hl
    rcases l with _ | ⟨a, l1⟩
    · rfl
    rcases l1 with _ | ⟨b, rest⟩
    · rfl
    rw [replEsc]
    by_cases hab : (a = '\\' && b = 'n') = true
    · rw [if_pos hab]
      have hr : hasEscSeq (replEsc rest) = false := by
        refine ihn rest ?_
        simp only [List.length_cons] at hl
        omega
      cases hX : replEsc rest with
      | nil => rfl
      | cons x xs =>
        rw [hX] at hr
        rw [hasEscSeq]
        have h1 : decide ('\n' = '\\') = false := by decide
        rw [h1, Bool.false_and, Bool.false_or]
        exact hr
    · rw [if_neg hab]
      have hr : hasEscSeq (replEsc (b :: rest)) = false := by
        refine ihn (b :: rest) ?_
        simp only [List.length_cons] at hl ⊢
        omega
      cases hX : replEsc (b :: rest) with
      | nil => rfl
      | cons x xs =>
        rw [hX] at hr
        rw [hasEscSeq]
        have hx : x = '\n' ∨ b = x := by
          have hh := replEsc_head (b :: rest) x (by rw [hX]; rfl)
          rcases hh with hh | hh
          · exact Or.inl hh
          · right
            simpa using hh
        have habp : ¬(a = '\\' ∧ b = 'n') := by
          intro hcon
          exact hab (by simp [hcon.1, hcon.2])
        have hfst : (decide (a = '\\') && decide (x = 'n')) = false := by
          rcases hx with hx | hx
          · have hxn : x ≠ 'n' := by rw [hx]; decide
            simp [hxn]
          · by_cases ha : a = '\\'
            · have hb : b ≠ 'n' := fun hbn => habp ⟨ha, hbn⟩
              have hxn : x ≠ 'n' := by rw [← hx]; exact hb
              simp [hxn]
            · simp [ha]
        rw [hfst, hr]
        rfl

theorem replEsc_no_esc (l : List Char) : hasEscSeq (replEsc l) = false :=
  replEsc_no_esc_bounded l.length l (Nat.le_refl _)

/-- Claim C7: the parser's repair loop replaces, in each of the three
multi-line string fields `test_steps`, `preconditions` and
`expected_result` of a decoded candidate, every literal backslash-n
sequence by a real newline, and the repaired field contains no literal
backslash-n sequence any more. -/
theorem claim7_newline_repair (fs : Obj) (k : String) (s : String)
    (hk : k = "test_steps" ∨ k = "preconditions" ∨ k = "expected_result")
    (h : olookup k fs = some (.str s)) :
    fixFields (.obj fs) = .ok (.obj (normObjFields fs))
    ∧ olookup k (normObjFields fs) = some (.str (pyReplaceEsc s))
    ∧ hasEscSeq (pyReplaceEsc s).data = false := by
  refine ⟨fixFields_obj fs, ?_, replEsc_no_esc s.data⟩
  unfold normObjFields
  rcases hk with hk | hk | hk <;> subst hk
  · rw [olookup_normField_ne _ _ _ (by decide), olookup_normField_ne _ _ _ (by decide)]
    exact olookup_normField_self _ _ _ h
  · rw [olookup_normField_ne _ _ _ (by decide)]
    apply olookup_normField_self
    rw [olookup_normField_ne _ _ _ (by decide)]
    exact h
  · apply olookup_normField_self
    rw [olookup_normField_ne _ _ _ (by decide), olookup_normField_ne _ _ _ (by decide)]
    exact h

/-- Witness for C7: a candidate whose `test_steps` value carries a
literal backslash-n; after the loop it holds a real newline and no
literal escape. -/
theorem claim7_newline_repair_witness :
    (("test_steps" : String) = "test_steps" ∨ ("test_steps" : String) = "preconditions" ∨
        ("test_steps" : String) = "expected_result")
    ∧ olookup "test_steps" [("test_steps", JsonVal.str "a\\nb")] = some (.str "a\\nb")
    ∧ (fixFields (.obj [("test_steps", JsonVal.str "a\\nb")]) =
          .ok (.obj (normObjFields [("test_steps", JsonVal.str "a\\nb")]))
        ∧ olookup "test_steps" (normObjFields [("test_steps", JsonVal.str "a\\nb")]) =
          some (.str (pyReplaceEsc "a\\nb"))
        ∧ hasEscSeq (pyReplaceEsc "a\\nb").data = false) :=
  ⟨Or.inl rfl, rfl,
    claim7_newline_repair [("test_steps", JsonVal.str "a\\nb")] "test_steps" "a\\nb"
      (Or.inl rfl) rfl⟩

/-- Claim C9: every expanded row is the 9-field record of the `StepRow`
schema (Test Case ID, Test Case Title, Description, Preconditions, Step
Number, Test Step, Expected Result, Screenshot, Test Data), and the
Screenshot field is always the empty string. -/
theorem claim9_screenshot_always_empty (tcs : List TCRow) :
    (expandedRows tcs).all (fun r => r.screenshot == "") = true := by
  rw [List.all_eq_true]
  intro r hr
  rw [expandedRows, List.mem_flatMap] at hr
  obtain ⟨tc, _, hmem⟩ := hr
  obtain ⟨m, st, _, he⟩ := mem_buildRows tc _ _ 1 r hmem
  subst he
  rfl

/-! ### The three top-level branches of the parser -/

theorem ebind_ok {α β : Type} (x : α) (f : α → Except String β) :
    Except.bind (Except.ok x) f = f x := rfl

theorem ebind_error {α β : Type} (e : String) (f : α → Except String β) :
    Except.bind (Except.error e : Except String α) f = Except.error e := rfl

theorem exMapM_generic (t : String) :
    exMapM fixFields [JsonVal.obj (genericFallbackObj t)] =
      .ok [JsonVal.obj (genericFallbackObj t)] := rfl

theorem pdDataFrame_generic (t : String) :
    pdDataFrame [JsonVal.obj (genericFallbackObj t)] =
      .ok (mkDFObjs [genericFallbackObj t]) := by
  simp [pdDataFrame, isObjV, asObj]

theorem shape_generic (t : String) :
    selectCols (renameCols (fillMissing (mkDFObjs [genericFallbackObj t]))) =
      genericFallbackDF t := by
  simp [mkDFObjs, unionKeys, addKeys, keysOf, genericFallbackObj, strMem, olookup, fillMissing,
    fillStep, requiredPairs, DF.names, renameCols, renName, selectCols, displayNames,
    genericFallbackDF, List.filter_cons]

theorem pipeline_generic (t : String) :
    dataFramePipeline [JsonVal.obj (genericFallbackObj t)] = .ok (genericFallbackDF t) := by
  unfold dataFramePipeline
  rw [exMapM_generic, ebind_ok]
  unfold frameStage
  rw [pdDataFrame_generic, ebind_ok]
  unfold shapeOk
  rw [shape_generic]

/-- The frame produced from a decoded empty array: zero rows, the eight
display columns all empty. -/
theorem pipeline_nil :
    dataFramePipeline [] =
      .ok ⟨0, [("Test Case ID", []), ("Test Case Title", []), ("Description", []),
               ("Preconditions", []), ("Test Steps", []), ("Expected Result", []),
               ("Test Data", []), ("Module/Feature", [])]⟩ := rfl

theorem parse_eq_error (s e : String) (h : getCases (pyStrip s) = .error e) :
    parse_test_cases_from_response s = errorFallbackDF (pyStrip s) e := by
  unfold parse_test_cases_from_response
  rw [h, ebind_error]
  rfl

theorem parse_eq_generic (s : String) (h : extractSpan (pyStrip s).data = none) :
    parse_test_cases_from_response s = genericFallbackDF (pyStrip s) := by
  unfold parse_test_cases_from_response
  have hg : getCases (pyStrip s) = .ok [JsonVal.obj (genericFallbackObj (pyStrip s))] := by
    unfold getCases
    rw [h]
  rw [hg, ebind_ok, pipeline_generic]
  rfl

/-! ### The regex match and its interplay with stripping -/

theorem contains_of_hasArraySpan : ∀ l : List Char, hasArraySpan l = true → l.contains ']' = true := by
  intro l
  induction l with
  | nil => intro h; cases h
  | cons c cs ih =>
    intro h
    rw [hasArraySpan] at h
    simp only [List.elem_eq_mem, decide_eq_true_eq, List.mem_cons]
    by_cases hc : c = '['
    · rw [if_pos hc] at h
      simp only [List.elem_eq_mem, decide_eq_true_eq] at h
      exact Or.inr h
    · rw [if_neg hc] at h
      have := ih h
      simp only [List.elem_eq_mem, decide_eq_true_eq] at this
      exact Or.inr this

theorem hasArraySpan_append_left (pre : List Char) :
    ∀ l : List Char, hasArraySpan l = true → hasArraySpan (pre ++ l) = true := by
  induction pre with
  | nil => intro l h; exact h
  | cons c cs ih =>
    intro l h
    rw [List.cons_append, hasArraySpan]
    by_cases hc : c = '['
    · rw [if_pos hc]
      have hm := contains_of_hasArraySpan l h
      simp only [List.elem_eq_mem, decide_eq_true_eq] at hm ⊢
      exact List.mem_append_right cs hm
    · rw [if_neg hc]
      exact ih l h

theorem hasArraySpan_append_right (suf : List Char) :
    ∀ l : List Char, hasArraySpan l = true → hasArraySpan (l ++ suf) = true := by
  intro l
  induction l with
  | nil => intro h; cases h
  | cons c cs ih =>
    intro h
    rw [hasArraySpan] at h
    rw [List.cons_append, hasArraySpan]
    by_cases hc : c = '['
    · rw [if_pos hc] at h ⊢
      simp only [List.elem_eq_mem, decide_eq_true_eq] at h ⊢
      exact List.mem_append_left suf h
    · rw [if_neg hc] at h ⊢
      exact ih h

/-- Stripping only removes characters from the two ends. -/
theorem pyStripList_infix (l : List Char) :
    ∃ pre suf, l = pre ++ pyStripList l ++ suf := by
  obtain ⟨pre, hpre⟩ := List.dropWhile_suffix (l := l) isPyWs
  obtain ⟨q, hq⟩ := List.dropWhile_suffix (l := (l.dropWhile isPyWs).reverse) isPyWs
  refine ⟨pre, q.reverse, ?_⟩
  have hm : l.dropWhile isPyWs = pyStripList l ++ q.reverse := by
    have := congrArg List.reverse hq
    rw [List.reverse_append, List.reverse_reverse] at this
    rw [← this]
    rfl
  conv_lhs => rw [← hpre]
  rw [hm, List.append_assoc]

theorem hasArraySpan_strip (l : List Char) (h : hasArraySpan l = false) :
    hasArraySpan (pyStripList l) = false := by
  by_contra hc
  rw [Bool.not_eq_false] at hc
  obtain ⟨pre, suf, hps⟩ := pyStripList_infix l
  have : hasArraySpan l = true := by
    rw [hps]
    exact hasArraySpan_append_right suf _
      (hasArraySpan_append_left pre _ hc)
  rw [this] at h
  cases h

theorem extractSpan_eq_none (l : List Char) (h : hasArraySpan l = false) :
    extractSpan l = none := by
  induction l with
  | nil => rfl
  | cons c cs ih =>
    rw [hasArraySpan] at h
    rw [extractSpan]
    by_cases hc : c = '['
    · rw [if_pos hc] at h ⊢
      rw [h]
      rfl
    · rw [if_neg hc] at h ⊢
      exact ih h

/-! ### Claims C1 and C6 -/

/-- Claim C1 as the code actually behaves (amended): when a bracketed
span is found but fails to decode as JSON, the raised decode error lands
in the except branch, so `parse` returns the diagnostic fallback frame -
title "Parsing Error", description carrying the error message, test steps
the first 500 characters of the stripped raw text, preconditions "Manual
review required", expected result "Successful generation after review",
test data "N/A", module "System" - not the generic fallback record. -/
theorem claim1_decode_failure_diagnostic_fallback (s : String) (sp : List Char) (e : String)
    (h1 : extractSpan (pyStrip s).data = some sp)
    (h2 : jsonDecode sp = .error e) :
    parse_test_cases_from_response s = errorFallbackDF (pyStrip s) e := by
  apply parse_eq_error
  unfold getCases
  rw [h1]
  show Except.map toPyList (jsonDecode sp) = .error e
  rw [h2]
  rfl

/-- Witness for the amended C1 at the concrete input `"[not json]"`. -/
theorem claim1_decode_failure_diagnostic_fallback_witness :
    extractSpan (pyStrip "[not json]").data = some "[not json]".data
    ∧ jsonDecode "[not json]".data = .error "Expecting value"
    ∧ parse_test_cases_from_response "[not json]" =
        errorFallbackDF (pyStrip "[not json]") "Expecting value" :=
  ⟨rfl, rfl,
    claim1_decode_failure_diagnostic_fallback "[not json]" "[not json]".data "Expecting value"
      rfl rfl⟩

/-- Counterexample to claim C1 as stated: `"[not json]"` has a bracketed
span that fails to decode, yet the parse result is the diagnostic record
(title "Parsing Error", test steps = the raw text), not the generic
fallback record (title "Generated Test Case", test steps = the 3-line
generic procedure) the claim requires. -/
theorem claim1_counterexample :
    extractSpan (pyStrip "[not json]").data = some "[not json]".data
    ∧ (jsonDecode "[not json]".data).isOk = false
    ∧ (parse_test_cases_from_response "[not json]").colVals "Test Case Title" =
        [[some (.str "Parsing Error")]]
    ∧ (parse_test_cases_from_response "[not json]").colVals "Test Steps" =
        [[some (.str "[not json]")]]
    ∧ ("Parsing Error" : String) ≠ "Generated Test Case"
    ∧ ("[not json]" : String) ≠ "1. Review context\n2. Execute test\n3. Validate results" :=
  ⟨rfl, rfl, rfl, rfl, by decide, by decide⟩

/-- Claim C6: an input with no left bracket followed by a right bracket
(the empty string included) takes the no-array branch: the parse result
is exactly the one generic record, whose test steps are the fixed 3-line
generic procedure. -/
theorem claim6_no_span_generic_fallback (s : String)
    (h : hasArraySpan s.data = false) :
    parse_test_cases_from_response s = genericFallbackDF (pyStrip s)
    ∧ (parse_test_cases_from_response s).nrows = 1
    ∧ (parse_test_cases_from_response s).colVals "Test Steps" =
        [[some (.str "1. Review context\n2. Execute test\n3. Validate results")]] := by
  have hg : parse_test_cases_from_response s = genericFallbackDF (pyStrip s) :=
    parse_eq_generic s (extractSpan_eq_none _ (hasArraySpan_strip s.data h))
  rw [hg]
  exact ⟨rfl, rfl, rfl⟩

/-- Witness for C6 at the concrete input `"hello"`. -/
theorem claim6_no_span_generic_fallback_witness :
    hasArraySpan "hello".data = false
    ∧ (parse_test_cases_from_response "hello" = genericFallbackDF (pyStrip "hello")
        ∧ (parse_test_cases_from_response "hello").nrows = 1
        ∧ (parse_test_cases_from_response "hello").colVals "Test Steps" =
            [[some (.str "1. Review context\n2. Execute test\n3. Validate results")]]) :=
  ⟨rfl, claim6_no_span_generic_fallback "hello" rfl⟩

/-! ### Claim C3: totality and (non-)emptiness of the parse result -/

theorem exMapM_length (f : JsonVal → Except String JsonVal) :
    ∀ (l l2 : List JsonVal), exMapM f l = .ok l2 → l2.length = l.length := by
  intro l
  induction l with
  | nil =>
    intro l2 h
    rw [exMapM] at h
    cases h
    rfl
  | cons v vs ih =>
    intro l2 h
    rw [exMapM] at h
    cases hv : f v with
    | error e =>
      rw [hv] at h
      have h1 : (Except.error e : Except String (List JsonVal)) = .ok l2 := h
      exact Except.noConfusion h1
    | ok b =>
      rw [hv] at h
      have h1 : Except.bind (exMapM f vs) (fun bs => pure (b :: bs)) = .ok l2 := h
      cases hvs : exMapM f vs with
      | error e =>
        rw [hvs] at h1
        have h2 : (Except.error e : Except String (List JsonVal)) = .ok l2 := h1
        exact Except.noConfusion h2
      | ok bs =>
        rw [hvs] at h1
        have h2 : Except.ok (b :: bs) = Except.ok l2 := h1
        cases h2
        simp [ih bs hvs]

theorem pdDataFrame_nrows (l : List JsonVal) (df : DF) (h : pdDataFrame l = .ok df) :
    df.nrows = l.length := by
  unfold pdDataFrame at h
  by_cases hall : l.all isObjV = true
  · rw [if_pos hall] at h
    cases h
    simp [mkDFObjs]
  · rw [if_neg hall] at h
    exact Except.noConfusion h

theorem fill_foldl_nrows :
    ∀ (ps : List (String × String)) (df : DF), (List.foldl fillStep df ps).nrows = df.nrows := by
  intro ps
  induction ps with
  | nil => intro df; rfl
  | cons p ps ih =>
    intro df
    rw [List.foldl_cons, ih]
    unfold fillStep
    by_cases hc : strMem p.1 df.names = true
    · rw [if_pos hc]
    · rw [if_neg hc]

theorem selectCols_nrows (df : DF) : (selectCols df).nrows = df.nrows := rfl

theorem renameCols_nrows (df : DF) : (renameCols df).nrows = df.nrows := rfl

theorem renameCols_cols (df : DF) :
    (renameCols df).cols = df.cols.map (fun c => (renName c.1, c.2)) := rfl

theorem selectCols_cols (df : DF) :
    (selectCols df).cols = displayNames.flatMap (fun n => df.cols.filter (fun c => c.1 = n)) := rfl

theorem shaped_nrows (df : DF) : (selectCols (renameCols (fillMissing df))).nrows = df.nrows := by
  rw [selectCols_nrows, renameCols_nrows]
  exact fill_foldl_nrows requiredPairs df

theorem pipeline_nrows (l : List JsonVal) (df : DF) (h : dataFramePipeline l = .ok df) :
    df.nrows = l.length := by
  unfold dataFramePipeline at h
  cases h1 : exMapM fixFields l with
  | error e =>
    rw [h1, ebind_error] at h
    exact Except.noConfusion h
  | ok cs =>
    rw [h1, ebind_ok] at h
    unfold frameStage at h
    cases h3 : pdDataFrame cs with
    | error e =>
      rw [h3, ebind_error] at h
      exact Except.noConfusion h
    | ok df0 =>
      rw [h3, ebind_ok] at h
      unfold shapeOk at h
      have h5 : selectCols (renameCols (fillMissing df0)) = df := Except.ok.inj h
      rw [← h5, shaped_nrows, pdDataFrame_nrows cs df0 h3, exMapM_length fixFields l cs h1]

/-- Claim C3 (amended): `parse` is total - every failure is caught and
turned into a fallback frame - but the returned record set is non-empty
only when the decoded span is not the empty JSON array: the frame has
zero rows exactly when the bracketed span of the stripped input decodes
to `[]`. -/
theorem claim3_empty_iff_empty_array (s : String) :
    (parse_test_cases_from_response s).nrows = 0 ↔ decodedEmptyArray s = true := by
  unfold decodedEmptyArray
  cases h1 : extractSpan (pyStrip s).data with
  | none =>
    rw [parse_eq_generic s h1]
    simp [genericFallbackDF, emptySpanDecode]
  | some sp =>
    simp only [emptySpanDecode]
    cases h2 : jsonDecode sp with
    | error e =>
      have hg : getCases (pyStrip s) = .error e := by
        unfold getCases
        rw [h1]
        show Except.map toPyList (jsonDecode sp) = .error e
        rw [h2]
        rfl
      rw [parse_eq_error s e hg]
      simp [errorFallbackDF, isEmptyArrayDecode]
    | ok v =>
      have hg : getCases (pyStrip s) = .ok (toPyList v) := by
        unfold getCases
        rw [h1]
        show Except.map toPyList (jsonDecode sp) = .ok (toPyList v)
        rw [h2]
        rfl
      unfold parse_test_cases_from_response
      rw [hg, ebind_ok]
      cases h3 : dataFramePipeline (toPyList v) with
      | ok df =>
        have hn := pipeline_nrows _ _ h3
        simp only [unwrapOrErrorDF]
        rw [hn]
        cases v with
        | arr xs => cases xs <;> simp [toPyList, isEmptyArrayDecode]
        | null => simp [toPyList, isEmptyArrayDecode]
        | bool b => simp [toPyList, isEmptyArrayDecode]
        | num n => simp [toPyList, isEmptyArrayDecode]
        | str s1 => simp [toPyList, isEmptyArrayDecode]
        | obj fs => simp [toPyList, isEmptyArrayDecode]
      | error e =>
        simp only [unwrapOrErrorDF]
        cases v with
        | arr xs =>
          cases xs with
          | nil =>
            have h4 : dataFramePipeline [] = .error e := h3
            rw [pipeline_nil] at h4
            exact Except.noConfusion h4
          | cons x xs => simp [errorFallbackDF, isEmptyArrayDecode]
        | null => simp [errorFallbackDF, isEmptyArrayDecode]
        | bool b => simp [errorFallbackDF, isEmptyArrayDecode]
        | num n => simp [errorFallbackDF, isEmptyArrayDecode]
        | str s1 => simp [errorFallbackDF, isEmptyArrayDecode]
        | obj fs => simp [errorFallbackDF, isEmptyArrayDecode]

/-- Counterexample to claim C3 as stated: the input `"[]"` (a decodable
empty array) yields a frame with zero rows - not "at least one TestCase
record" as the claim requires. -/
theorem claim3_counterexample :
    (parse_test_cases_from_response "[]").nrows = 0
    ∧ (parse_test_cases_from_response "[]").cols.all (fun c => c.2.isEmpty) = true
    ∧ decodedEmptyArray "[]" = true :=
  ⟨rfl, rfl, rfl⟩

/-! ### Claims C2 and C10: the shape of the built frame

The pipeline's success path is characterised for a decoded list of dicts
whose keys avoid the eight display column labels (a key colliding with a
display label duplicates columns after the rename step - the C10
counterexample). -/

theorem strMem_iff (k : String) : ∀ l : List String, strMem k l = true ↔ k ∈ l := by
  intro l
  induction l with
  | nil => simp [strMem]
  | cons c cs ih =>
    rw [strMem]
    simp only [Bool.or_eq_true, decide_eq_true_eq, ih, List.mem_cons]
    constructor
    · rintro (h | h)
      · exact Or.inl h.symm
      · exact Or.inr h
    · rintro (h | h)
      · exact Or.inl h.symm
      · exact Or.inr h

theorem strMem_append (k : String) :
    ∀ a b : List String, strMem k (a ++ b) = (strMem k a || strMem k b) := by
  intro a b
  induction a with
  | nil => simp [strMem]
  | cons c cs ih => by_cases hc : c = k <;> simp [strMem, hc, ih]

theorem filter_eq_self_of_nodup {α : Type} [DecidableEq α] (a : α) :
    ∀ l : List α, l.Nodup →
      l.filter (fun x => x = a) = if a ∈ l then [a] else [] := by
  intro l
  induction l with
  | nil => intro _; simp
  | cons c cs ih =>
    intro hnd
    rw [List.nodup_cons] at hnd
    rw [List.filter_cons]
    by_cases hc : c = a
    · subst hc
      have hnot : List.filter (fun x => decide (x = c)) cs = [] := by
        rw [ih hnd.2, if_neg hnd.1]
      simp [hnot]
    · rw [if_neg (by simp [hc]), ih hnd.2]
      by_cases ha : a ∈ cs
      · rw [if_pos ha, if_pos (List.mem_cons_of_mem c ha)]
      · rw [if_neg ha, if_neg (by simp [List.mem_cons, ha, Ne.symm hc])]

theorem addKeys_mem (k : String) :
    ∀ (ks acc : List String), k ∈ addKeys acc ks ↔ k ∈ acc ∨ k ∈ ks := by
  intro ks
  induction ks with
  | nil => intro acc; simp [addKeys]
  | cons x xs ih =>
    intro acc
    show k ∈ addKeys (if strMem x acc then acc else acc ++ [x]) xs ↔ _
    by_cases hx : strMem x acc = true
    · rw [if_pos hx, ih acc]
      have hxa : x ∈ acc := (strMem_iff x acc).mp hx
      constructor
      · rintro (h | h)
        · exact Or.inl h
        · exact Or.inr (List.mem_cons_of_mem x h)
      · rintro (h | h)
        · exact Or.inl h
        · rcases List.mem_cons.mp h with h | h
          · exact Or.inl (h ▸ hxa)
          · exact Or.inr h
    · rw [if_neg hx, ih (acc ++ [x])]
      simp [List.mem_append, List.mem_cons, or_assoc, or_comm, or_left_comm]

theorem addKeys_nodup :
    ∀ (ks acc : List String), acc.Nodup → (addKeys acc ks).Nodup := by
  intro ks
  induction ks with
  | nil => intro acc h; exact h
  | cons x xs ih =>
    intro acc h
    show (addKeys (if strMem x acc then acc else acc ++ [x]) xs).Nodup
    by_cases hx : strMem x acc = true
    · rw [if_pos hx]
      exact ih acc h
    · rw [if_neg hx]
      refine ih (acc ++ [x]) ?_
      rw [← List.concat_eq_append]
      refine List.Nodup.concat ?_ h
      intro hmem
      exact hx ((strMem_iff x acc).mpr hmem)

theorem unionKeys_aux_mem (k : String) :
    ∀ (objs : List Obj) (acc : List String),
      k ∈ objs.foldl (fun a o => addKeys a (keysOf o)) acc ↔
        k ∈ acc ∨ ∃ o ∈ objs, k ∈ keysOf o := by
  intro objs
  induction objs with
  | nil => intro acc; simp
  | cons o os ih =>
    intro acc
    rw [List.foldl_cons, ih (addKeys acc (keysOf o)), addKeys_mem]
    simp [or_assoc]

theorem unionKeys_mem (k : String) (objs : List Obj) :
    k ∈ unionKeys objs ↔ ∃ o ∈ objs, k ∈ keysOf o := by
  rw [unionKeys, unionKeys_aux_mem]
  simp

theorem unionKeys_nodup (objs : List Obj) : (unionKeys objs).Nodup := by
  rw [unionKeys]
  have : ∀ (os : List Obj) (acc : List String), acc.Nodup →
      (os.foldl (fun a o => addKeys a (keysOf o)) acc).Nodup := by
    intro os
    induction os with
    | nil => intro acc h; exact h
    | cons o os ih =>
      intro acc h
      rw [List.foldl_cons]
      exact ih _ (addKeys_nodup (keysOf o) acc h)
  exact this objs [] List.nodup_nil

theorem keysOf_setVal (k : String) (v : JsonVal) (o : Obj) :
    keysOf (setVal k v o) = keysOf o := by
  rw [keysOf, setVal, List.map_map]
  refine List.map_congr_left ?_
  intro p _
  by_cases hp : p.1 = k <;> simp [hp]

theorem keysOf_normField (k : String) (o : Obj) : keysOf (normField k o) = keysOf o := by
  unfold normField
  cases h : olookup k o with
  | none => rfl
  | some x => cases x <;> first | rfl | exact keysOf_setVal k _ o

theorem keysOf_normObjFields (o : Obj) : keysOf (normObjFields o) = keysOf o := by
  unfold normObjFields
  rw [keysOf_normField, keysOf_normField, keysOf_normField]

theorem unionKeys_normalized (objs : List Obj) :
    unionKeys (objs.map normObjFields) = unionKeys objs := by
  rw [unionKeys, unionKeys, List.foldl_map]
  have hfun : (fun (acc : List String) (o : Obj) => addKeys acc (keysOf (normObjFields o)))
      = fun acc o => addKeys acc (keysOf o) := by
    funext acc o
    rw [keysOf_normObjFields]
  rw [hfun]

theorem exMapM_objs :
    ∀ objs : List Obj, exMapM fixFields (objs.map JsonVal.obj) =
      .ok ((objs.map normObjFields).map JsonVal.obj) := by
  intro objs
  induction objs with
  | nil => rfl
  | cons o os ih =>
    rw [List.map_cons, exMapM, fixFields_obj]
    simp only [ebind_ok, ih]
    rfl

theorem pdDataFrame_objs (objs : List Obj) :
    pdDataFrame (objs.map JsonVal.obj) = .ok (mkDFObjs objs) := by
  unfold pdDataFrame
  rw [if_pos (by simp [List.all_eq_true, isObjV])]
  rw [List.map_map]
  have : asObj ∘ JsonVal.obj = id := by
    funext o
    rfl
  rw [this, List.map_id]

theorem mkDFObjs_names (objs : List Obj) : (mkDFObjs objs).names = unionKeys objs := by
  rw [mkDFObjs, DF.names]
  show List.map Prod.fst (List.map _ (unionKeys objs)) = _
  rw [List.map_map]
  have : (Prod.fst ∘ fun k => (k, objs.map (fun o => olookup k o))) = id := by
    funext k
    rfl
  rw [this, List.map_id]

/-- The fill loop appends, in order, one sentinel column for each
required key absent from the frame's labels (keys are pairwise distinct,
so later fills do not see earlier ones). -/
theorem fill_foldl_cols :
    ∀ (ps : List (String × String)) (df : DF), (ps.map Prod.fst).Nodup →
      (List.foldl fillStep df ps).cols =
        df.cols ++ (ps.filter (fun p => !(strMem p.1 df.names))).map
          (fun p => (p.1, List.replicate df.nrows toBeDefined)) := by
  intro ps
  induction ps with
  | nil => intro df _; simp
  | cons p ps ih =>
    intro df hnd
    rw [List.map_cons, List.nodup_cons] at hnd
    rw [List.foldl_cons, List.filter_cons]
    by_cases hm : strMem p.1 df.names = true
    · rw [fillStep, if_pos hm, ih df hnd.2]
      simp [hm]
    · have hstep : fillStep df p =
          ⟨df.nrows, df.cols ++ [(p.1, List.replicate df.nrows toBeDefined)]⟩ := by
        rw [fillStep, if_neg hm]
      rw [hstep, ih _ hnd.2]
      have hnames : (⟨df.nrows, df.cols ++ [(p.1, List.replicate df.nrows toBeDefined)]⟩ : DF).names
          = df.names ++ [p.1] := by
        simp [DF.names]
      have hfil : List.filter
            (fun q => !(strMem q.1 (⟨df.nrows, df.cols ++ [(p.1, List.replicate df.nrows toBeDefined)]⟩ : DF).names)) ps
          = List.filter (fun q => !(strMem q.1 df.names)) ps := by
        refine List.filter_congr ?_
        intro q hq
        rw [hnames, strMem_append]
        have hq1 : decide (p.1 = q.1) = false := by
          refine decide_eq_false ?_
          intro hcon
          exact hnd.1 (hcon ▸ List.mem_map_of_mem Prod.fst hq)
        rw [show strMem q.1 [p.1] = decide (p.1 = q.1) from by simp [strMem]]
        rw [hq1]
        simp
      rw [hfil]
      simp [hm]

theorem renName_pairs : ∀ p ∈ requiredPairs, renName p.1 = p.2 := by decide

theorem renName_eq_iff (k : String) (hk : k ∉ displayNames)
    (p : String × String) (hp : p ∈ requiredPairs) :
    (renName k = p.2) ↔ (k = p.1) := by
  fin_cases hp
  all_goals constructor
  all_goals intro h
  all_goals first
    | (subst h; decide)
    | (unfold renName at h
       split_ifs at h with h1 h2 h3 h4 h5 h6 h7 h8 <;>
         first
           | assumption
           | exact absurd h (by decide)
           | (subst h; exact (hk (by decide)).elim))

/-- Filtering a label-tagged image list for the label of one of its
(pairwise distinct) sources yields exactly that source's image. -/
theorem map_pair_filter (F : (String × String) → List Cell) (p : String × String) :
    ∀ ps : List (String × String), (ps.map Prod.snd).Nodup → p ∈ ps →
      (ps.map (fun q => (q.2, F q))).filter (fun c => c.1 = p.2) = [(p.2, F p)] := by
  intro ps
  induction ps with
  | nil => intro _ h; cases h
  | cons q qs ih =>
    intro hnd hp
    rw [List.map_cons, List.nodup_cons] at hnd
    rw [List.map_cons, List.filter_cons]
    rcases List.mem_cons.mp hp with hpe | hpm
    · subst hpe
      rw [if_pos (by simp)]
      have htail : (qs.map (fun q => (q.2, F q))).filter (fun c => c.1 = p.2) = [] := by
        rw [List.filter_eq_nil_iff]
        intro c hc
        obtain ⟨r, hr, rfl⟩ := List.mem_map.mp hc
        simp only [decide_eq_true_eq]
        intro hcon
        exact hnd.1 (hcon ▸ List.mem_map_of_mem Prod.snd hr)
      rw [htail]
    · have hq2 : q.2 ≠ p.2 := by
        intro hcon
        exact hnd.1 (hcon ▸ List.mem_map_of_mem Prod.snd hpm)
      rw [if_neg (by simpa using hq2)]
      exact ih hnd.2 hpm

/-- For a batch of dicts whose keys avoid the display labels, the filled
and renamed frame carries, for each required pair, exactly one column
labelled with the display name: the original (renamed) data column when
the key occurs somewhere in the batch, the appended sentinel column
otherwise. -/
theorem renamed_filter (objs : List Obj)
    (hkeys : ∀ o ∈ objs, ∀ k ∈ keysOf o, k ∉ displayNames)
    (p : String × String) (hp : p ∈ requiredPairs) :
    (renameCols (fillMissing (mkDFObjs objs))).cols.filter (fun c => c.1 = p.2) =
      [(p.2,
        if strMem p.1 (unionKeys objs) = true
          then objs.map (fun o => olookup p.1 o)
          else List.replicate objs.length toBeDefined)] := by
  have hfill : (fillMissing (mkDFObjs objs)).cols =
      (unionKeys objs).map (fun k => (k, objs.map (fun o => olookup k o)))
        ++ (requiredPairs.filter (fun q => !(strMem q.1 (unionKeys objs)))).map
          (fun q => (q.1, List.replicate objs.length toBeDefined)) := by
    rw [fillMissing, fill_foldl_cols requiredPairs (mkDFObjs objs) (by decide), mkDFObjs_names]
    rfl
  rw [renameCols_cols, hfill, List.map_append, List.filter_append, List.map_map, List.map_map,
    List.filter_map, List.filter_map]
  have hcA : List.filter
        ((fun c => decide (c.1 = p.2)) ∘
          ((fun c => (renName c.1, c.2)) ∘ fun k => (k, objs.map (fun o => olookup k o))))
        (unionKeys objs)
      = List.filter (fun k => k = p.1) (unionKeys objs) := by
    refine List.filter_congr ?_
    intro k hk
    have hknd : k ∉ displayNames := by
      obtain ⟨o, ho, hko⟩ := (unionKeys_mem k objs).mp hk
      exact hkeys o ho k hko
    show decide (renName k = p.2) = decide (k = p.1)
    exact decide_eq_decide.mpr (renName_eq_iff k hknd p hp)
  have hcB : List.filter
        ((fun c => decide (c.1 = p.2)) ∘
          ((fun c => (renName c.1, c.2)) ∘
            fun q => (q.1, List.replicate objs.length toBeDefined)))
        (requiredPairs.filter (fun q => !(strMem q.1 (unionKeys objs))))
      = List.filter (fun q => q = p)
          (requiredPairs.filter (fun q => !(strMem q.1 (unionKeys objs)))) := by
    refine List.filter_congr ?_
    intro q hq
    have hqr : q ∈ requiredPairs := (List.mem_filter.mp hq).1
    show decide (renName q.1 = p.2) = decide (q = p)
    rw [renName_pairs q hqr]
    refine decide_eq_decide.mpr ?_
    have hsnd : ∀ q1 ∈ requiredPairs, ∀ p1 ∈ requiredPairs, (q1.2 = p1.2 ↔ q1 = p1) := by
      decide
    exact hsnd q hqr p hp
  rw [hcA, hcB, filter_eq_self_of_nodup p.1 _ (unionKeys_nodup objs),
    filter_eq_self_of_nodup p _ ((by decide : requiredPairs.Nodup).filter _)]
  by_cases hU : strMem p.1 (unionKeys objs) = true
  · rw [if_pos hU, if_pos ((strMem_iff _ _).mp hU)]
    rw [if_neg (fun hmem => by
      have hc := (List.mem_filter.mp hmem).2
      rw [hU] at hc
      exact Bool.noConfusion hc)]
    simp [renName_pairs p hp]
  · have hU0 : strMem p.1 (unionKeys objs) = false := Bool.eq_false_iff.mpr hU
    rw [if_neg hU, if_neg (fun hmem => hU ((strMem_iff _ _).mpr hmem))]
    rw [if_pos (List.mem_filter.mpr ⟨hp, by rw [hU0]; rfl⟩)]
    simp [renName_pairs p hp]

/-- Selecting the display labels from a frame that carries exactly one
column per label returns those columns in request order. -/
theorem select_flatMap (RC : List (String × List Cell)) (F : String × String → List Cell) :
    ∀ ps : List (String × String),
      (∀ p ∈ ps, RC.filter (fun c => c.1 = p.2) = [(p.2, F p)]) →
      (ps.map Prod.snd).flatMap (fun n => RC.filter (fun c => c.1 = n)) =
        ps.map (fun p => (p.2, F p)) := by
  intro ps
  induction ps with
  | nil => intro _; rfl
  | cons p ps ih =>
    intro hf
    rw [List.map_cons, List.flatMap_cons, hf p (List.mem_cons_self p ps),
      ih (fun q hq => hf q (List.mem_cons_of_mem p hq)), List.map_cons]
    rfl

/-- The full column-level characterisation of the success path: the
shaped frame has exactly the eight display columns in `required_columns`
order; each holds the batch's (possibly NaN) values when the key occurs
in the batch, and the sentinel fill otherwise. -/
theorem shaped_cols (objs : List Obj)
    (hkeys : ∀ o ∈ objs, ∀ k ∈ keysOf o, k ∉ displayNames) :
    (selectCols (renameCols (fillMissing (mkDFObjs objs)))).cols =
      requiredPairs.map (fun p => (p.2,
        if strMem p.1 (unionKeys objs) = true
          then objs.map (fun o => olookup p.1 o)
          else List.replicate objs.length toBeDefined)) := by
  rw [selectCols_cols, displayNames]
  exact select_flatMap _ _ requiredPairs (fun p hp => renamed_filter objs hkeys p hp)

/-- The pipeline on a decoded list of dicts: normalization then frame
shaping, with no possible error. -/
theorem pipeline_objs (objs : List Obj) :
    dataFramePipeline (objs.map JsonVal.obj) =
      .ok (selectCols (renameCols (fillMissing (mkDFObjs (objs.map normObjFields))))) := by
  unfold dataFramePipeline
  rw [exMapM_objs, ebind_ok]
  unfold frameStage
  rw [pdDataFrame_objs, ebind_ok]
  rfl

theorem hkeys_normalized (objs : List Obj)
    (hkeys : ∀ o ∈ objs, ∀ k ∈ keysOf o, k ∉ displayNames) :
    ∀ o ∈ objs.map normObjFields, ∀ k ∈ keysOf o, k ∉ displayNames := by
  intro o ho k hk
  obtain ⟨o0, ho0, rfl⟩ := List.mem_map.mp ho
  rw [keysOf_normObjFields] at hk
  exact hkeys o0 ho0 k hk

/-- Claim C2 (amended): for a decoded batch of dicts (keys avoiding the
eight display labels), each required display column is unique and its
cells are: the candidate's (repaired) value where the key is present, a
NaN (`none`) where the key is absent from that candidate but present
somewhere in the batch, and the sentinel `"To be defined"` in every row
only when the key is absent from the whole batch.  So "missing fields
become the sentinel" holds batch-wide, not record-wise: a record missing
a field another record has gets a null, not a string. -/
theorem claim2_sentinel_only_when_absent_everywhere (objs : List Obj) (df : DF)
    (hdf : dataFramePipeline (objs.map JsonVal.obj) = .ok df)
    (hkeys : ∀ o ∈ objs, ∀ k ∈ keysOf o, k ∉ displayNames)
    (p : String × String) (hp : p ∈ requiredPairs) :
    df.colVals p.2 =
      [if strMem p.1 (unionKeys objs) = true
        then objs.map (fun o => olookup p.1 (normObjFields o))
        else List.replicate objs.length toBeDefined] := by
  rw [pipeline_objs] at hdf
  have hdfe := Except.ok.inj hdf
  rw [← hdfe, DF.colVals, shaped_cols _ (hkeys_normalized objs hkeys)]
  rw [map_pair_filter _ p requiredPairs (by decide) hp]
  rw [List.map_cons, List.map_nil, unionKeys_normalized]
  by_cases hU : strMem p.1 (unionKeys objs) = true
  · rw [if_pos hU, if_pos hU, List.map_map]
    rfl
  · have hU0 : strMem p.1 (unionKeys objs) = false := Bool.eq_false_iff.mpr hU
    rw [if_neg hU, if_neg hU, List.length_map]

/-- Witness for the amended C2: one candidate carrying only `title`; its
column keeps the value, and every other required column is the sentinel
column (checked here through the frame the pipeline actually builds). -/
theorem claim2_sentinel_only_when_absent_everywhere_witness :
    dataFramePipeline ([[("title", JsonVal.str "A")]].map JsonVal.obj) =
      .ok ⟨1, [("Test Case ID", [toBeDefined]), ("Test Case Title", [some (JsonVal.str "A")]),
               ("Description", [toBeDefined]), ("Preconditions", [toBeDefined]),
               ("Test Steps", [toBeDefined]), ("Expected Result", [toBeDefined]),
               ("Test Data", [toBeDefined]), ("Module/Feature", [toBeDefined])]⟩
    ∧ (∀ o ∈ [[("title", JsonVal.str "A")]], ∀ k ∈ keysOf o, k ∉ displayNames)
    ∧ ("title", "Test Case Title") ∈ requiredPairs
    ∧ DF.colVals ⟨1, [("Test Case ID", [toBeDefined]), ("Test Case Title", [some (JsonVal.str "A")]),
               ("Description", [toBeDefined]), ("Preconditions", [toBeDefined]),
               ("Test Steps", [toBeDefined]), ("Expected Result", [toBeDefined]),
               ("Test Data", [toBeDefined]), ("Module/Feature", [toBeDefined])]⟩ "Test Case Title" =
        [[some (JsonVal.str "A")]] := by
  refine ⟨rfl, by decide, by decide, ?_⟩
  have h := claim2_sentinel_only_when_absent_everywhere [[("title", JsonVal.str "A")]]
    ⟨1, [("Test Case ID", [toBeDefined]), ("Test Case Title", [some (JsonVal.str "A")]),
         ("Description", [toBeDefined]), ("Preconditions", [toBeDefined]),
         ("Test Steps", [toBeDefined]), ("Expected Result", [toBeDefined]),
         ("Test Data", [toBeDefined]), ("Module/Feature", [toBeDefined])]⟩
    rfl (by decide) ("title", "Test Case Title") (by decide)
  exact h.trans (by rfl)

/-- Counterexample to claim C2 as stated: in the batch
`[{"test_case_id": "TC001", "title": "A"}, {"test_case_id": "TC002"}]`
the second record's title cell is NaN (`none`) - a null, not the string
sentinel - because `title` is present in one candidate and absent in the
other, so the fill loop never sees it as a missing column. -/
theorem claim2_counterexample :
    (parse_test_cases_from_response
        "[\x7b\"test_case_id\": \"TC001\", \"title\": \"A\"\x7d, \x7b\"test_case_id\": \"TC002\"\x7d]").colVals
        "Test Case Title" = [[some (JsonVal.str "A"), none]]
    ∧ (none : Cell) ∈ [some (JsonVal.str "A"), (none : Cell)]
    ∧ (none : Cell) ≠ some (JsonVal.str "To be defined") :=
  ⟨rfl, by simp, fun h => Option.noConfusion h⟩

/-- Claim C10 (amended): on the success path, for a decoded batch of
dicts whose keys avoid the eight display labels, the output frame has
exactly the eight display columns in the fixed order, and any other
decoded fields (`priority`, `test_type`, ...) are dropped. -/
theorem claim10_fixed_columns (objs : List Obj) (df : DF)
    (hdf : dataFramePipeline (objs.map JsonVal.obj) = .ok df)
    (hkeys : ∀ o ∈ objs, ∀ k ∈ keysOf o, k ∉ displayNames) :
    df.names = displayNames ∧ "priority" ∉ df.names ∧ "test_type" ∉ df.names := by
  rw [pipeline_objs] at hdf
  have hdfe := Except.ok.inj hdf
  have hnames : df.names = displayNames := by
    rw [← hdfe, DF.names, shaped_cols _ (hkeys_normalized objs hkeys), List.map_map]
    rfl
  refine ⟨hnames, ?_, ?_⟩ <;> rw [hnames] <;> decide

/-- Witness for the amended C10, at the same one-candidate batch. -/
theorem claim10_fixed_columns_witness :
    dataFramePipeline ([[("title", JsonVal.str "A")]].map JsonVal.obj) =
      .ok ⟨1, [("Test Case ID", [toBeDefined]), ("Test Case Title", [some (JsonVal.str "A")]),
               ("Description", [toBeDefined]), ("Preconditions", [toBeDefined]),
               ("Test Steps", [toBeDefined]), ("Expected Result", [toBeDefined]),
               ("Test Data", [toBeDefined]), ("Module/Feature", [toBeDefined])]⟩
    ∧ (∀ o ∈ [[("title", JsonVal.str "A")]], ∀ k ∈ keysOf o, k ∉ displayNames)
    ∧ DF.names ⟨1, [("Test Case ID", [toBeDefined]), ("Test Case Title", [some (JsonVal.str "A")]),
               ("Description", [toBeDefined]), ("Preconditions", [toBeDefined]),
               ("Test Steps", [toBeDefined]), ("Expected Result", [toBeDefined]),
               ("Test Data", [toBeDefined]), ("Module/Feature", [toBeDefined])]⟩ = displayNames := by
  refine ⟨rfl, by decide, ?_⟩
  exact (claim10_fixed_columns [[("title", JsonVal.str "A")]]
    ⟨1, [("Test Case ID", [toBeDefined]), ("Test Case Title", [some (JsonVal.str "A")]),
         ("Description", [toBeDefined]), ("Preconditions", [toBeDefined]),
         ("Test Steps", [toBeDefined]), ("Expected Result", [toBeDefined]),
         ("Test Data", [toBeDefined]), ("Module/Feature", [toBeDefined])]⟩
    rfl (by decide)).1

/-- Counterexample to claim C10 as stated: a decoded object may itself
use a display label as a key; on
`[{"test_case_id": "a", "Test Case ID": "b"}]` the rename step creates a
duplicate `Test Case ID` label and the selection keeps both, so the
success path returns nine columns, not eight. -/
theorem claim10_counterexample :
    (parse_test_cases_from_response
        "[\x7b\"test_case_id\": \"a\", \"Test Case ID\": \"b\"\x7d]").names =
      ["Test Case ID", "Test Case ID", "Test Case Title", "Description", "Preconditions",
       "Test Steps", "Expected Result", "Test Data", "Module/Feature"]
    ∧ ["Test Case ID", "Test Case ID", "Test Case Title", "Description", "Preconditions",
       "Test Steps", "Expected Result", "Test Data", "Module/Feature"] ≠ displayNames :=
  ⟨rfl, by decide⟩

end TCG
